import Mathlib

/-!
Verification development for the `smartpy_sim_indicators` framework
(`framework.py`): year binning, the orca-backed cache/column registry
wrappers, broadcast/reindex column factories, and the multi-year
indicator pipeline with its wide/long compilation helpers.

Pure pandas/orca/smartpy_core operations that the repository calls but does
not define are modelled from the specification's description of those
external collaborators; each such definition carries a doc comment starting
with `Modelled from the spec:`.
-/

namespace SmartpySim

/-! ### Year resolver: `get_year_bin` (framework.py lines 53-81) -/

/-- Python list indexing `l[i]`, including negative-index support:
`l[-k]` is `l[len(l) - k]` when `1 ≤ k ≤ len(l)`; out of range is an
IndexError, modelled as `none`. -/
def pyIndex (l : List Int) (i : Int) : Option Int :=
  if 0 ≤ i then l[i.toNat]?
  else if (-i).toNat ≤ l.length then l[l.length - (-i).toNat]?
  else none

/-- Mirrors the `for y_bin in year_bins: if year < y_bin: break; idx += 1`
loop of `get_year_bin`: counts how many times `idx` is incremented, i.e.
the length of the longest prefix of the list whose elements do not exceed
`yr`.  The loop leaves `idx = binSteps yr bins - 1`. -/
def binSteps (yr : Int) : List Int → Nat
  | [] => 0
  | b :: rest => if yr < b then 0 else binSteps yr rest + 1

/-- Embedding of `framework.get_year_bin` (framework.py lines 53-81).
The input list is sorted first; `none` for `year` stands for Python `None`;
the result is `none` exactly when `year_bins` is empty (Python would raise
an IndexError on `year_bins[0]`). -/
def get_year_bin (year : Option Int) (year_bins : List Int) : Option Int :=
  let s := year_bins.insertionSort (· ≤ ·)
  match s.head? with
  | none => none
  | some first_bin =>
    match year with
    | none => some first_bin
    | some yr =>
      if yr ≤ first_bin then some first_bin
      else pyIndex s ((binSteps yr s : Int) - 1)

lemma binSteps_pos {yr first_bin : Int} {rest : List Int} (h : first_bin ≤ yr) :
    0 < binSteps yr (first_bin :: rest) := by
  simp only [binSteps, if_neg (not_lt.mpr h)]
  exact Nat.succ_pos _

lemma binSteps_max_le (s : List Int) (hs : s.Sorted (· ≤ ·)) (yr : Int)
    (h : 0 < binSteps yr s) :
    ∃ m, s[binSteps yr s - 1]? = some m ∧ m ∈ s ∧ m ≤ yr ∧
      ∀ b ∈ s, b ≤ yr → b ≤ m := by
  induction s with
  | nil => simp [binSteps] at h
  | cons b rest ih =>
    rcases List.sorted_cons.mp hs with ⟨hb, hrest⟩
    by_cases hyb : yr < b
    · simp [binSteps, if_pos hyb] at h
    · have hble : b ≤ yr := not_lt.mp hyb
      simp only [binSteps, if_neg hyb, Nat.add_sub_cancel]
      rcases Nat.eq_zero_or_pos (binSteps yr rest) with hz | hpos
      · refine ⟨b, by simp [hz], List.mem_cons_self b rest, hble, ?_⟩
        intro x hx hxle
        rcases List.mem_cons.mp hx with rfl | hx'
        · exact le_refl x
        · exfalso
          cases rest with
          | nil => exact List.not_mem_nil x hx'
          | cons r rest' =>
            have hyr : yr < r := by
              by_contra hc
              simp [binSteps, if_neg hc] at hz
            rcases List.mem_cons.mp hx' with rfl | hx''
            · exact absurd hxle (not_le.mpr hyr)
            · have : r ≤ x := (List.sorted_cons.mp hrest).1 x hx''
              exact absurd hxle (not_le.mpr (lt_of_lt_of_le hyr this))
      · obtain ⟨m, hm, hmem, hmle, hmax⟩ := ih hrest hpos
        have hidx : (b :: rest)[binSteps yr rest]? = some m := by
          have : binSteps yr rest = (binSteps yr rest - 1) + 1 :=
            (Nat.succ_pred_eq_of_pos hpos).symm
          rw [this]
          simpa using hm
        refine ⟨m, hidx, List.mem_cons_of_mem b hmem, hmle, ?_⟩
        intro x hx hxle
        rcases List.mem_cons.mp hx with rfl | hx'
        · exact hb m hmem
        · exact hmax x hx' hxle

/-- C3: for a non-empty ascending-sorted `year_bins` and any `year`:
if `year` is `None` or at most the first bin, `get_year_bin` returns the
first bin; otherwise it returns the largest element of `year_bins` that is
at most `year` (so a year equal to a bin value returns that bin, and a year
above every bin returns the maximum bin). -/
theorem get_year_bin_spec (year_bins : List Int) (first_bin : Int)
    (hs : year_bins.Sorted (· ≤ ·)) (hh : year_bins.head? = some first_bin)
    (year : Option Int) :
    ((year = none ∨ ∃ yr, year = some yr ∧ yr ≤ first_bin) →
       get_year_bin year year_bins = some first_bin) ∧
    (∀ yr, year = some yr → first_bin < yr →
       ∃ m, get_year_bin year year_bins = some m ∧ m ∈ year_bins ∧ m ≤ yr ∧
         ∀ b ∈ year_bins, b ≤ yr → b ≤ m) := by
  have hsort : year_bins.insertionSort (· ≤ ·) = year_bins :=
    List.Sorted.insertionSort_eq hs
  constructor
  · rintro (rfl | ⟨yr, rfl, hyr⟩)
    · simp [get_year_bin, hsort, hh]
    · simp [get_year_bin, hsort, hh, if_pos hyr]
  · rintro yr rfl hlt
    cases year_bins with
    | nil => simp at hh
    | cons b rest =>
      have hb : b = first_bin := by simpa using hh
      subst hb
      have hpos : 0 < binSteps yr (b :: rest) := binSteps_pos (le_of_lt hlt)
      obtain ⟨m, hm, hmem, hmle, hmax⟩ :=
        binSteps_max_le (b :: rest) hs yr hpos
      refine ⟨m, ?_, hmem, hmle, hmax⟩
      have hcast : (((binSteps yr (b :: rest) : Int) - 1)).toNat
          = binSteps yr (b :: rest) - 1 := by omega
      simp only [get_year_bin, hsort, List.head?_cons, if_neg (not_le.mpr hlt),
        pyIndex, if_pos (by omega : (0:Int) ≤ (binSteps yr (b :: rest) : Int) - 1),
        hcast]
      exact hm

/-- Witness for C3 at `year_bins = [2010, 2020, 2030]`, `year = 2025`. -/
theorem get_year_bin_spec_witness :
    (((some 2025 : Option Int) = none ∨
        ∃ yr, (some 2025 : Option Int) = some yr ∧ yr ≤ 2010) →
       get_year_bin (some 2025) [2010, 2020, 2030] = some 2010) ∧
    (∀ yr, (some 2025 : Option Int) = some yr → 2010 < yr →
       ∃ m, get_year_bin (some 2025) [2010, 2020, 2030] = some m ∧
         m ∈ [2010, 2020, 2030] ∧ m ≤ yr ∧
         ∀ b ∈ [2010, 2020, 2030], b ≤ yr → b ≤ m) :=
  get_year_bin_spec [2010, 2020, 2030] 2010 (by decide) rfl (some 2025)

/-- C10: `get_year_bin` is invariant under pre-sorting its bin list, since
the function sorts its input before binning. -/
theorem get_year_bin_sort_invariant (year : Option Int) (year_bins : List Int)
    (hne : year_bins ≠ []) :
    get_year_bin year year_bins
      = get_year_bin year (year_bins.insertionSort (· ≤ ·)) := by
  have hidem : (year_bins.insertionSort (· ≤ ·)).insertionSort (· ≤ ·)
      = year_bins.insertionSort (· ≤ ·) :=
    List.Sorted.insertionSort_eq (List.sorted_insertionSort _ _)
  simp [get_year_bin, hidem]

/-- Witness for C10 at `year = 2022`, `year_bins = [2030, 2010, 2020]`. -/
theorem get_year_bin_sort_invariant_witness :
    get_year_bin (some 2022) [2030, 2010, 2020]
      = get_year_bin (some 2022) (([2030, 2010, 2020] : List Int).insertionSort (· ≤ ·)) :=
  get_year_bin_sort_invariant (some 2022) [2030, 2010, 2020] (by decide)

/-! ### Multi-year indicator pipeline: `get_indicators` (framework.py lines 245-292)

The loop body of `get_indicators` is transcribed as a list of operations in a
small operation language that also has constructors for the module's own
cache-clearing API (`clear_cache`, `clear_table`, `clear_injectable`,
framework.py lines 10-50), so that the presence or absence of a cache reset
in the loop is a statement about the transcription. -/

/-- Python runtime errors relevant to the embedded fragment. -/
inductive PyErr where
  | nameError (n : String)
  | keyError (n : String)
deriving DecidableEq

/-- Names bound in the local scope of `get_indicators`: its parameters and
the variables assigned in its body (framework.py lines 245-292). -/
def getIndicatorsLocals : List String :=
  ["h5", "years", "tables", "by", "agg_func", "agg_kwargs",
   "base_year", "to_concat", "y"]

/-- Names bound as globals of the `framework` module: its imports
(framework.py lines 1-7) and its own top-level function definitions. -/
def frameworkGlobals : List String :=
  ["division", "print_function", "gc", "np", "pd", "orca", "broadcast",
   "clear_cache", "clear_table", "clear_injectable", "get_year_bin",
   "make_broadcast_injectable", "make_reindex_injectable",
   "make_series_broadcast_injectable", "load_tables", "list_store_years",
   "list_store_tables", "get_indicators", "compile_to_cols",
   "compile_to_rows"]

/-- Python name resolution inside the body of `get_indicators`: a name is
looked up in the local scope, then in the module globals; an unbound name
raises a NameError. -/
def pyResolveName (n : String) : Except PyErr Unit :=
  if n ∈ getIndicatorsLocals ∨ n ∈ frameworkGlobals then .ok ()
  else .error (.nameError n)

/-- Store partition selector passed to `load_tables`. -/
inductive StorePartition where
  | base
  | year (y : Int)
deriving DecidableEq

/-- Operation language for the `get_indicators` loop body, together with the
cache-clearing operations the `framework` module offers. -/
inductive IndicatorOp where
  | printYear (y : Int)
  | gcCollect
  | loadTablesVars (h5Var : String) (p : StorePartition) (tablesVar : String)
  | callAggFunc
  | clearColumnCacheOp (table col : String)
  | clearTableCacheOp (table : String)
  | clearInjectableCacheOp (name : String)
  | clearAllCachesOp
deriving DecidableEq

/-- An operation is a cache reset when it invokes any of the cache-clearing
entry points. -/
def isCacheReset : IndicatorOp → Bool
  | .clearColumnCacheOp _ _ => true
  | .clearTableCacheOp _ => true
  | .clearInjectableCacheOp _ => true
  | .clearAllCachesOp => true
  | _ => false

/-- Transcription of the loop body of `get_indicators` for iteration `y`
(framework.py lines 279-290): print the year, run `gc.collect()`, call
`load_tables(sim_h5, 'base' or y, tabs_to_process)` (the arguments are the
variable names as written in the source), then call the aggregation
function. -/
def getIndicatorsLoopBody (y base_year : Int) : List IndicatorOp :=
  [.printYear y, .gcCollect,
   if y = base_year then .loadTablesVars "sim_h5" .base "tabs_to_process"
   else .loadTablesVars "sim_h5" (.year y) "tabs_to_process",
   .callAggFunc]

/-- Evaluation of a single operation.  A `loadTablesVars` operation first
resolves its argument variable names left to right, as Python evaluates the
call `load_tables(sim_h5, ..., tabs_to_process)`; an unbound name faults
before `load_tables` itself can run. -/
def evalIndicatorOp : IndicatorOp → Except PyErr Unit
  | .printYear _ => .ok ()
  | .gcCollect => .ok ()
  | .loadTablesVars h5Var _ tablesVar => do
      pyResolveName h5Var
      pyResolveName tablesVar
      pure ()
  | .callAggFunc => .ok ()
  | .clearColumnCacheOp _ _ => .ok ()
  | .clearTableCacheOp _ => .ok ()
  | .clearInjectableCacheOp _ => .ok ()
  | .clearAllCachesOp => .ok ()

/-- Run a list of operations, stopping at the first fault. -/
def runOps : List IndicatorOp → Except PyErr Unit
  | [] => .ok ()
  | op :: rest => do
      evalIndicatorOp op
      runOps rest

/-- Embedding of `framework.get_indicators` (framework.py lines 245-292).
The `base_year` injectable lookup (line 275) is assumed resolved (it is
registered in variables.py); the function then iterates the loop body over
`years` in order and would return the list of processed years with their
aggregation results. -/
def get_indicators (base_year : Int) : List Int → Except PyErr (List Int)
  | [] => .ok []
  | y :: rest => do
      runOps (getIndicatorsLoopBody y base_year)
      let r ← get_indicators base_year rest
      .ok (y :: r)

/-- C1: `get_indicators` faults with `NameError: sim_h5` on every call with a
non-empty `years` list, because its body references the unbound names
`sim_h5` and `tabs_to_process` (framework.py lines 285 and 287) instead of
its parameters `h5` and `tables`; no table is ever loaded and no per-year
result dict is ever returned. -/
theorem get_indicators_raises_name_error (base_year : Int) (years : List Int)
    (hne : years ≠ []) :
    get_indicators base_year years = .error (.nameError "sim_h5") := by
  cases years with
  | nil => exact absurd rfl hne
  | cons y rest =>
    have hname : pyResolveName "sim_h5" = .error (.nameError "sim_h5") := by
      rfl
    by_cases h : y = base_year <;>
      simp [get_indicators, runOps, getIndicatorsLoopBody, evalIndicatorOp,
        hname, h, Bind.bind, Except.bind]

/-- Witness for C1 at `base_year = 2018`, `years = [2020]`. -/
theorem get_indicators_raises_name_error_witness :
    get_indicators 2018 [2020] = .error (.nameError "sim_h5") :=
  get_indicators_raises_name_error 2018 [2020] (by decide)

/-- C2 counterexample: the loop body of `get_indicators` for the concrete
iteration `y = 2020` with `base_year = 2018` contains no cache-reset
operation at all, refuting the claim that a full cache reset is forced
before each year's load and aggregation. -/
theorem get_indicators_no_cache_reset_counterexample :
    ¬ ∃ op ∈ getIndicatorsLoopBody 2020 2018, isCacheReset op = true := by
  decide

/-- C2 amended: before each year's table load and aggregation call,
`get_indicators` forces only a garbage collection (`gc.collect()`); its loop
body contains no cache-reset operation, so orca-cached values from earlier
years are not cleared by `get_indicators` itself. -/
theorem get_indicators_only_gc_collect (y base_year : Int) :
    IndicatorOp.gcCollect ∈ getIndicatorsLoopBody y base_year ∧
    ∀ op ∈ getIndicatorsLoopBody y base_year, isCacheReset op = false := by
  constructor
  · by_cases h : y = base_year <;> simp [getIndicatorsLoopBody, h]
  · intro op hop
    by_cases h : y = base_year <;>
      · simp [getIndicatorsLoopBody, h] at hop
        rcases hop with rfl | rfl | rfl | rfl <;> rfl

/-- Witness for C2's amended statement at `y = 2020`, `base_year = 2018`. -/
theorem get_indicators_only_gc_collect_witness :
    IndicatorOp.gcCollect ∈ getIndicatorsLoopBody 2020 2018 ∧
    ∀ op ∈ getIndicatorsLoopBody 2020 2018, isCacheReset op = false :=
  get_indicators_only_gc_collect 2020 2018

/-! ### Orca table/column registry model

The table registry collaborator (orca) is external to the repository; its
contract is modelled from the spec: tables with `.columns`, `.local_columns`
and `.index`, registered computed columns keyed by `(table, column)` with a
cache flag, a cache scope and a cached value, and named injectables. -/

/-- A cell value; `none` models a pandas missing value (NaN). -/
abbrev Val := Option Int

/-- A pandas Series: an index and the values aligned to it. -/
structure Series where
  index : List Int
  values : List Val
deriving DecidableEq

/-- Lookup of a series value by index key (first match); `none` when the key
is absent or the stored value is missing. -/
def seriesLookup (s : Series) (k : Int) : Val :=
  match (s.index.zip s.values).find? (fun p => p.1 == k) with
  | some p => p.2
  | none => none

/-- A stored DataFrame: an index and named local (stored) columns. -/
structure DF where
  index : List Int
  cols : List (String × List Val)
deriving DecidableEq

/-- Names of the stored columns: orca `local_columns`. -/
def DF.localColumns (df : DF) : List String := df.cols.map (·.1)

/-- Access a local column as a series aligned to the frame's index. -/
def DF.getLocal (df : DF) (c : String) : Option Series :=
  (df.cols.find? (fun p => p.1 == c)).map (fun p => ⟨df.index, p.2⟩)

/-- Orca cache scopes. -/
inductive CacheScope where
  | forever
  | iteration
  | step
deriving DecidableEq

/-- The column compute functions this repository registers: the three
factory templates of framework.py (lines 110-115, 125-128 and 139-146). -/
inductive ColFunc where
  | broadcastT (from_table to_table col_name fkey : String)
  | reindexT (from_table to_table col_name : String)
  | sBroadcastT (from_series to_table fkey : String) (fill_with : Option Int)
deriving DecidableEq

/-- A registered computed column: its function, caching policy and the
currently cached value (if any). -/
structure ColEntry where
  func : ColFunc
  useCache : Bool
  scope : CacheScope
  cached : Option Series
deriving DecidableEq

/-- The orca registry state: tables, registered computed columns keyed by
`(table name, column name)`, and injectables. -/
structure OrcaState where
  tables : List (String × DF)
  columns : List ((String × String) × ColEntry)
  injectables : List (String × Series)
deriving DecidableEq

/-- orca `get_table`. -/
def OrcaState.getTable (s : OrcaState) (n : String) : Option DF :=
  (s.tables.find? (fun p => p.1 == n)).map (·.2)

/-- orca `get_injectable`. -/
def OrcaState.getInjectable (s : OrcaState) (n : String) : Option Series :=
  (s.injectables.find? (fun p => p.1 == n)).map (·.2)

/-- Names of the computed columns registered for a table. -/
def registeredColsFor (s : OrcaState) (t : String) : List String :=
  (s.columns.filter (fun e => e.1.1 == t)).map (fun e => e.1.2)

/-- orca wrapper `columns` property: the stored frame's local columns
followed by the computed columns registered for the table. -/
def tableAllColumns (s : OrcaState) (t : String) (df : DF) : List String :=
  df.localColumns ++ registeredColsFor s t

/-- orca `add_column`: registers (or replaces) a computed column on a table,
with an empty cache. -/
def addColumn (s : OrcaState) (t c : String) (f : ColFunc) (useCache : Bool)
    (scope : CacheScope) : OrcaState :=
  { s with columns :=
      ((t, c), ⟨f, useCache, scope, none⟩) :: s.columns.filter (fun e => e.1 != (t, c)) }

/-- Embedding of `framework.make_broadcast_injectable` (framework.py lines
89-117): registers the broadcast template as a computed column named
`col_name` on `to_table`. -/
def make_broadcast_injectable (s : OrcaState) (from_table to_table col_name fkey : String)
    (cache : Bool) (cache_scope : CacheScope) : OrcaState :=
  addColumn s to_table col_name (.broadcastT from_table to_table col_name fkey)
    cache cache_scope

/-- Embedding of `framework.make_reindex_injectable` (framework.py lines
120-130). -/
def make_reindex_injectable (s : OrcaState) (from_table to_table col_name : String)
    (cache : Bool) (cache_scope : CacheScope) : OrcaState :=
  addColumn s to_table col_name (.reindexT from_table to_table col_name)
    cache cache_scope

/-- Embedding of `framework.make_series_broadcast_injectable` (framework.py
lines 133-148). -/
def make_series_broadcast_injectable (s : OrcaState)
    (from_series to_table col_name fkey : String) (fill_with : Option Int)
    (cache : Bool) (cache_scope : CacheScope) : OrcaState :=
  addColumn s to_table col_name (.sBroadcastT from_series to_table fkey fill_with)
    cache cache_scope

/-- Modelled from the spec: `smartpy_core.wrangling.broadcast` (an external
dependency, not under src/): for each row of the foreign-key series, look up
the value of the source series at that row's foreign-key value; foreign keys
absent from the source index propagate a missing-value marker. -/
def broadcastS (right fkeyCol : Series) : Series :=
  ⟨fkeyCol.index, fkeyCol.values.map (fun fk => fk.bind (seriesLookup right))⟩

/-- Modelled from the spec: pandas `Series.reindex` — aligns a series onto a
new index; keys absent from the source index become missing values. -/
def reindexS (s : Series) (idx : List Int) : Series :=
  ⟨idx, idx.map (seriesLookup s)⟩

/-- Modelled from the spec: pandas `fillna` — replaces every missing value
of the series by the given fill value. -/
def fillnaS (s : Series) (v : Int) : Series :=
  ⟨s.index, s.values.map (fun x => some (x.getD v))⟩

/-- Evaluation of a registered column function against the current state,
transcribing the three factory templates; the source-side columns are
accessed as stored (local) columns.  A missing table, column or injectable
is a lookup failure (`none`). -/
def evalColFunc (s : OrcaState) : ColFunc → Option Series
  | .broadcastT ft tt cn fk => do
      let fdf ← s.getTable ft
      let tdf ← s.getTable tt
      let fcol ← fdf.getLocal cn
      let fkcol ← tdf.getLocal fk
      some (broadcastS fcol fkcol)
  | .reindexT ft tt cn => do
      let fdf ← s.getTable ft
      let tdf ← s.getTable tt
      let fcol ← fdf.getLocal cn
      some (fillnaS (reindexS fcol tdf.index) 0)
  | .sBroadcastT nm tt fk fill => do
      let ser ← s.getInjectable nm
      let tdf ← s.getTable tt
      let fkcol ← tdf.getLocal fk
      let b := broadcastS ser fkcol
      some (match fill with
            | some v => fillnaS b v
            | none => b)

/-- Store a freshly computed value in a column's cache slot. -/
def setCached (s : OrcaState) (t c : String) (v : Series) : OrcaState :=
  { s with columns := s.columns.map (fun e =>
      if e.1 == (t, c) then (e.1, { e.2 with cached := some v }) else e) }

/-- Compute a column's value and store it per the caching policy. -/
def computeAndStore (s : OrcaState) (t c : String) (e : ColEntry) :
    Option (Series × OrcaState) :=
  match evalColFunc s e.func with
  | none => none
  | some v => if e.useCache then some (v, setCached s t c v) else some (v, s)

/-- orca column resolution: return the cached value when caching is on and a
value is cached; otherwise evaluate the registered function and store the
result per the caching policy. -/
def resolveColumn (s : OrcaState) (t c : String) : Option (Series × OrcaState) :=
  match s.columns.find? (fun p => p.1 == (t, c)) with
  | none => none
  | some e =>
    match e.2.cached with
    | some v => if e.2.useCache then some (v, s) else computeAndStore s t c e.2
    | none => computeAndStore s t c e.2

/-- The cached slot of a registered column, `none` when unregistered. -/
def cachedValue (s : OrcaState) (t c : String) : Option (Option Series) :=
  (s.columns.find? (fun p => p.1 == (t, c))).map (fun e => e.2.cached)

/-- The `columns` argument of `framework.clear_cache`: omitted, a single
column name, or a list of names. -/
inductive PyColumnsArg where
  | noArg
  | one (c : String)
  | many (cs : List String)

/-- orca `_COLUMNS[(t, c)].clear_cached()`: drops the cached value of one
registered column; a KeyError (`none`) when the column is unregistered. -/
def clearColumnCached (s : OrcaState) (t c : String) : Option OrcaState :=
  if (s.columns.find? (fun p => p.1 == (t, c))).isSome then
    some { s with columns := s.columns.map (fun e =>
        if e.1 == (t, c) then (e.1, { e.2 with cached := none }) else e) }
  else none

/-- Clear a list of columns of one table, one `clear_cached` call each. -/
def clearManyColumns (s : OrcaState) (t : String) : List String → Option OrcaState
  | [] => some s
  | c :: cs => do
      let s' ← clearColumnCached s t c
      clearManyColumns s' t cs

/-- Embedding of `framework.clear_cache` (framework.py lines 10-31): when
`columns` is omitted, the columns to clear are the set difference of the
table's full column set and its local columns; the chosen columns are then
cleared one by one. -/
def clear_cache (s : OrcaState) (table_name : String) (columns : PyColumnsArg) :
    Option OrcaState :=
  match columns with
  | .noArg => do
      let tab ← s.getTable table_name
      let cols := (tableAllColumns s table_name tab).dedup.filter
        (fun c => decide (c ∉ tab.localColumns))
      clearManyColumns s table_name cols
  | .many cs => clearManyColumns s table_name cs
  | .one c => clearColumnCached s table_name c

/-! ### Broadcast/reindex column behaviour (spec example state included) -/

/-- Example source frame: index `{1, 2, 3}` with column `v = [10, 20, 30]`. -/
def exFrom : DF := ⟨[1, 2, 3], [("v", [some 10, some 20, some 30])]⟩

/-- Example target frame: four rows with foreign keys `[1, 1, 2, 9]`. -/
def exTo : DF := ⟨[0, 1, 2, 3], [("fkey", [some 1, some 1, some 2, some 9])]⟩

/-- Example registry holding the two example frames. -/
def exState : OrcaState := ⟨[("from", exFrom), ("to", exTo)], [], []⟩

lemma addColumn_getTable (s : OrcaState) (t c : String) (f : ColFunc)
    (u : Bool) (sc : CacheScope) (n : String) :
    (addColumn s t c f u sc).getTable n = s.getTable n := rfl

lemma addColumn_getInjectable (s : OrcaState) (t c : String) (f : ColFunc)
    (u : Bool) (sc : CacheScope) (n : String) :
    (addColumn s t c f u sc).getInjectable n = s.getInjectable n := rfl

lemma seriesLookup_not_mem {s : Series} {k : Int} (h : k ∉ s.index) :
    seriesLookup s k = none := by
  unfold seriesLookup
  have hf : (s.index.zip s.values).find? (fun p => p.1 == k) = none := by
    rw [List.find?_eq_none]
    intro p hp
    have hmem := (List.of_mem_zip hp).1
    simp only [beq_iff_eq]
    intro hk
    exact h (hk ▸ hmem)
  rw [hf]

lemma getLocal_index {df : DF} {c : String} {ser : Series}
    (h : df.getLocal c = some ser) : ser.index = df.index := by
  unfold DF.getLocal at h
  rcases Option.map_eq_some'.mp h with ⟨p, _, hp⟩
  rw [← hp]

lemma computeAndStore_state {s : OrcaState} {t c : String} {e : ColEntry}
    {r : Series} {s' : OrcaState} (h : computeAndStore s t c e = some (r, s')) :
    s' = s ∨ s' = setCached s t c r := by
  unfold computeAndStore at h
  split at h
  · exact absurd h (by simp)
  · split at h
    · simp only [Option.some.injEq, Prod.mk.injEq] at h
      rcases h with ⟨rfl, rfl⟩
      exact Or.inr rfl
    · simp only [Option.some.injEq, Prod.mk.injEq] at h
      exact Or.inl h.2.symm

/-- C9: resolving any registered broadcast-style column (key broadcast,
index reindex, or series broadcast) leaves every source table and every
injectable of the registry unchanged: only the target column's value (and at
most its own cache slot) is produced. -/
theorem resolveColumn_preserves_sources (s : OrcaState) (t c : String)
    (r : Series) (s' : OrcaState) (h : resolveColumn s t c = some (r, s')) :
    s'.tables = s.tables ∧ s'.injectables = s.injectables := by
  unfold resolveColumn at h
  split at h
  · exact absurd h (by simp)
  · split at h
    · split at h
      · simp only [Option.some.injEq, Prod.mk.injEq] at h
        rcases h with ⟨rfl, rfl⟩
        exact ⟨rfl, rfl⟩
      · rcases computeAndStore_state h with rfl | rfl <;> exact ⟨rfl, rfl⟩
    · rcases computeAndStore_state h with rfl | rfl <;> exact ⟨rfl, rfl⟩

lemma evalColFunc_congr (s₁ s₂ : OrcaState) (f : ColFunc)
    (ht : s₁.tables = s₂.tables) (hi : s₁.injectables = s₂.injectables) :
    evalColFunc s₁ f = evalColFunc s₂ f := by
  have hT : ∀ n, s₁.getTable n = s₂.getTable n := by
    intro n; unfold OrcaState.getTable; rw [ht]
  have hI : ∀ n, s₁.getInjectable n = s₂.getInjectable n := by
    intro n; unfold OrcaState.getInjectable; rw [hi]
  cases f <;> simp [evalColFunc, hT, hI]

lemma resolveColumn_addColumn (s : OrcaState) (t c : String) (f : ColFunc)
    (scope : CacheScope) (v : Series)
    (hev : evalColFunc (addColumn s t c f true scope) f = some v) :
    resolveColumn (addColumn s t c f true scope) t c
      = some (v, setCached (addColumn s t c f true scope) t c v) := by
  have hfind : (addColumn s t c f true scope).columns.find? (fun p => p.1 == (t, c))
      = some ((t, c), ⟨f, true, scope, none⟩) := by
    unfold addColumn
    exact List.find?_cons_of_pos _ (by simp)
  unfold resolveColumn
  rw [hfind]
  show computeAndStore (addColumn s t c f true scope) t c ⟨f, true, scope, none⟩ = _
  unfold computeAndStore
  rw [hev]
  rfl

/-- Witness for C9: resolving the example broadcast column preserves the
example registry's tables and injectables. -/
theorem resolveColumn_preserves_sources_witness :
    (setCached (make_broadcast_injectable exState "from" "to" "v" "fkey" true .iteration)
        "to" "v" ⟨[0, 1, 2, 3], [some 10, some 10, some 20, none]⟩).tables
      = (make_broadcast_injectable exState "from" "to" "v" "fkey" true .iteration).tables ∧
    (setCached (make_broadcast_injectable exState "from" "to" "v" "fkey" true .iteration)
        "to" "v" ⟨[0, 1, 2, 3], [some 10, some 10, some 20, none]⟩).injectables
      = (make_broadcast_injectable exState "from" "to" "v" "fkey" true .iteration).injectables :=
  resolveColumn_preserves_sources
    (make_broadcast_injectable exState "from" "to" "v" "fkey" true .iteration)
    "to" "v" ⟨[0, 1, 2, 3], [some 10, some 10, some 20, none]⟩
    (setCached (make_broadcast_injectable exState "from" "to" "v" "fkey" true .iteration)
      "to" "v" ⟨[0, 1, 2, 3], [some 10, some 10, some 20, none]⟩) (by rfl)

/-- C5: a key-broadcast column registered by `make_broadcast_injectable`
resolves, on the target table, to the series that maps each row's foreign
key to the source column's value at that key, with a missing-value marker
whenever the foreign key is absent from the source index; on the spec's
example (`from` indexed `{1,2,3}` with `v = [10,20,30]`, `to` with
`fkey = [1,1,2,9]`) the result is `[10, 10, 20, missing]`. -/
theorem make_broadcast_injectable_spec
    (s : OrcaState) (ft tt cn fk : String) (fdf tdf : DF) (fcol fkcol : Series)
    (hft : s.getTable ft = some fdf) (htt : s.getTable tt = some tdf)
    (hfc : fdf.getLocal cn = some fcol) (hfk : tdf.getLocal fk = some fkcol) :
    ∃ r s', resolveColumn (make_broadcast_injectable s ft tt cn fk true .iteration) tt cn
        = some (r, s') ∧
      r.index = tdf.index ∧
      (∀ i : Nat, r.values[i]? = (fkcol.values[i]?).map (fun fv => fv.bind (seriesLookup fcol))) ∧
      (∀ k : Int, k ∉ fcol.index → seriesLookup fcol k = none) ∧
      (∃ sEx, resolveColumn (make_broadcast_injectable exState "from" "to" "v" "fkey"
          true .iteration) "to" "v"
        = some (⟨[0, 1, 2, 3], [some 10, some 10, some 20, none]⟩, sEx)) := by
  have hev : evalColFunc (make_broadcast_injectable s ft tt cn fk true .iteration)
      (.broadcastT ft tt cn fk) = some (broadcastS fcol fkcol) := by
    rw [evalColFunc_congr (make_broadcast_injectable s ft tt cn fk true .iteration) s
      (.broadcastT ft tt cn fk) rfl rfl]
    simp [evalColFunc, hft, htt, hfc, hfk]
  have hres := resolveColumn_addColumn s tt cn (.broadcastT ft tt cn fk) .iteration
    (broadcastS fcol fkcol) hev
  refine ⟨broadcastS fcol fkcol, _, hres, ?_, ?_, ?_, ⟨_, rfl⟩⟩
  · show fkcol.index = tdf.index
    exact getLocal_index hfk
  · intro i
    simp [broadcastS]
  · intro k hk
    exact seriesLookup_not_mem hk

/-- Witness for C5 on the spec's example frames. -/
theorem make_broadcast_injectable_spec_witness :
    ∃ r s', resolveColumn (make_broadcast_injectable exState "from" "to" "v" "fkey"
        true .iteration) "to" "v" = some (r, s') ∧
      r.index = exTo.index ∧
      (∀ i : Nat, r.values[i]? = ((⟨exTo.index, [some 1, some 1, some 2, some 9]⟩ : Series).values[i]?).map
        (fun fv => fv.bind (seriesLookup ⟨exFrom.index, [some 10, some 20, some 30]⟩))) ∧
      (∀ k : Int, k ∉ (⟨exFrom.index, [some 10, some 20, some 30]⟩ : Series).index →
        seriesLookup ⟨exFrom.index, [some 10, some 20, some 30]⟩ k = none) ∧
      (∃ sEx, resolveColumn (make_broadcast_injectable exState "from" "to" "v" "fkey"
          true .iteration) "to" "v"
        = some (⟨[0, 1, 2, 3], [some 10, some 10, some 20, none]⟩, sEx)) :=
  make_broadcast_injectable_spec exState "from" "to" "v" "fkey" exFrom exTo
    ⟨exFrom.index, [some 10, some 20, some 30]⟩
    ⟨exTo.index, [some 1, some 1, some 2, some 9]⟩
    (by rfl) (by rfl) (by rfl) (by rfl)

/-- C8: a reindex column registered by `make_reindex_injectable` resolves to
the source column aligned onto the target table's index, with every target
index entry that is absent from the source index filled with 0. -/
theorem make_reindex_injectable_spec
    (s : OrcaState) (ft tt cn : String) (fdf tdf : DF) (fcol : Series)
    (hft : s.getTable ft = some fdf) (htt : s.getTable tt = some tdf)
    (hfc : fdf.getLocal cn = some fcol) :
    ∃ r s', resolveColumn (make_reindex_injectable s ft tt cn true .iteration) tt cn
        = some (r, s') ∧
      r.index = tdf.index ∧
      (∀ (i : Nat) (k : Int), tdf.index[i]? = some k →
        r.values[i]? = some (some ((seriesLookup fcol k).getD 0))) ∧
      (∀ k : Int, k ∉ fcol.index → (seriesLookup fcol k).getD 0 = 0) := by
  have hev : evalColFunc (make_reindex_injectable s ft tt cn true .iteration)
      (.reindexT ft tt cn) = some (fillnaS (reindexS fcol tdf.index) 0) := by
    rw [evalColFunc_congr (make_reindex_injectable s ft tt cn true .iteration) s
      (.reindexT ft tt cn) rfl rfl]
    simp [evalColFunc, hft, htt, hfc]
  have hres := resolveColumn_addColumn s tt cn (.reindexT ft tt cn) .iteration
    (fillnaS (reindexS fcol tdf.index) 0) hev
  refine ⟨fillnaS (reindexS fcol tdf.index) 0, _, hres, rfl, ?_, ?_⟩
  · intro i k hik
    simp [fillnaS, reindexS, hik]
  · intro k hk
    rw [seriesLookup_not_mem hk]
    rfl

/-- Witness for C8: reindexing `v` from the example source frame onto the
example target index `[0, 1, 2, 3]` (key 0 unmatched). -/
theorem make_reindex_injectable_spec_witness :
    ∃ r s', resolveColumn (make_reindex_injectable exState "from" "to" "v"
        true .iteration) "to" "v" = some (r, s') ∧
      r.index = exTo.index ∧
      (∀ (i : Nat) (k : Int), exTo.index[i]? = some k →
        r.values[i]? = some (some ((seriesLookup ⟨exFrom.index, [some 10, some 20, some 30]⟩ k).getD 0))) ∧
      (∀ k : Int, k ∉ (⟨exFrom.index, [some 10, some 20, some 30]⟩ : Series).index →
        (seriesLookup ⟨exFrom.index, [some 10, some 20, some 30]⟩ k).getD 0 = 0) :=
  make_reindex_injectable_spec exState "from" "to" "v" exFrom exTo
    ⟨exFrom.index, [some 10, some 20, some 30]⟩ (by rfl) (by rfl) (by rfl)

/-! ### Cache clearing: `clear_cache` (framework.py lines 10-31) -/

lemma clearColumnCached_find? (s : OrcaState) (t c : String)
    (h : (s.columns.find? (fun p => p.1 == (t, c))).isSome) :
    ∃ s', clearColumnCached s t c = some s' ∧
      s'.tables = s.tables ∧ s'.injectables = s.injectables ∧
      ∀ key : String × String, s'.columns.find? (fun p => p.1 == key)
        = (s.columns.find? (fun p => p.1 == key)).map (fun e =>
            if key = (t, c) then (e.1, { e.2 with cached := none }) else e) := by
  unfold clearColumnCached
  rw [if_pos h]
  refine ⟨_, rfl, rfl, rfl, ?_⟩
  intro key
  rw [List.find?_map]
  have hpred : ((fun p : (String × String) × ColEntry => p.1 == key) ∘
      (fun e : (String × String) × ColEntry =>
        if e.1 == (t, c) then (e.1, { e.2 with cached := none }) else e))
      = (fun p : (String × String) × ColEntry => p.1 == key) := by
    funext e
    simp only [Function.comp_apply]
    split <;> rfl
  rw [hpred]
  cases hfind : s.columns.find? (fun p => p.1 == key) with
  | none => rfl
  | some e =>
    have hkeq : e.1 = key := by
      have := List.find?_some hfind
      simpa using this
    simp only [Option.map_some']
    congr 1
    by_cases hk : key = (t, c)
    · rw [if_pos hk, if_pos (by simp [hkeq, hk])]
    · rw [if_neg hk, if_neg (by rw [hkeq]; simpa using hk)]

lemma clearManyColumns_spec (t : String) (cols : List String) :
    ∀ s : OrcaState,
      (∀ c ∈ cols, ((s.columns.find? (fun p => p.1 == (t, c))).isSome)) →
      ∃ s', clearManyColumns s t cols = some s' ∧
        s'.tables = s.tables ∧ s'.injectables = s.injectables ∧
        ∀ key : String × String, s'.columns.find? (fun p => p.1 == key)
          = (s.columns.find? (fun p => p.1 == key)).map (fun e =>
              if key.1 = t ∧ key.2 ∈ cols then (e.1, { e.2 with cached := none }) else e) := by
  induction cols with
  | nil =>
    intro s _
    refine ⟨s, rfl, rfl, rfl, ?_⟩
    intro key
    cases hfind : s.columns.find? (fun p => p.1 == key) <;> simp
  | cons c cs ih =>
    intro s hpre
    obtain ⟨s1, h1, ht1, hi1, hf1⟩ :=
      clearColumnCached_find? s t c (hpre c (List.mem_cons_self c cs))
    have hpre1 : ∀ c' ∈ cs, ((s1.columns.find? (fun p => p.1 == (t, c'))).isSome) := by
      intro c' hc'
      rw [hf1 (t, c')]
      simpa using hpre c' (List.mem_cons_of_mem c hc')
    obtain ⟨s', h2, ht2, hi2, hf2⟩ := ih s1 hpre1
    refine ⟨s', ?_, ht2.trans ht1, hi2.trans hi1, ?_⟩
    · simp only [clearManyColumns, h1, Option.bind_eq_bind, Option.some_bind]
      exact h2
    · intro key
      rw [hf2 key, hf1 key, Option.map_map]
      cases hfind : s.columns.find? (fun p => p.1 == key) with
      | none => rfl
      | some e =>
        simp only [Option.map_some', Function.comp_apply]
        congr 1
        by_cases hk1 : key = (t, c)
        · rw [if_pos hk1]
          have hcond : key.1 = t ∧ key.2 ∈ c :: cs := by
            rw [hk1]; exact ⟨rfl, List.mem_cons_self c cs⟩
          rw [if_pos hcond]
          split <;> rfl
        · rw [if_neg hk1]
          by_cases hk2 : key.1 = t ∧ key.2 ∈ cs
          · rw [if_pos hk2, if_pos ⟨hk2.1, List.mem_cons_of_mem c hk2.2⟩]
          · rw [if_neg hk2, if_neg ?_]
            rintro ⟨hh1, hh2⟩
            rcases List.mem_cons.mp hh2 with hh3 | hh3
            · exact hk1 (Prod.ext hh1 hh3)
            · exact hk2 ⟨hh1, hh3⟩

lemma mem_clearList {s : OrcaState} {t : String} {tab : DF} {c : String} :
    c ∈ (tableAllColumns s t tab).dedup.filter (fun c => decide (c ∉ tab.localColumns))
      ↔ c ∈ registeredColsFor s t ∧ c ∉ tab.localColumns := by
  simp only [List.mem_filter, List.mem_dedup, tableAllColumns, List.mem_append,
    decide_eq_true_eq]
  tauto

lemma find?_isSome_of_registered {s : OrcaState} {t c : String}
    (h : c ∈ registeredColsFor s t) :
    (s.columns.find? (fun p => p.1 == (t, c))).isSome := by
  unfold registeredColsFor at h
  rw [List.mem_map] at h
  obtain ⟨e, he, hec⟩ := h
  rw [List.mem_filter] at he
  obtain ⟨hmem, ht⟩ := he
  rw [List.find?_isSome]
  refine ⟨e, hmem, ?_⟩
  have h1 : e.1.1 = t := by simpa using ht
  have h2 : e.1.2 = c := hec
  simp [Prod.ext_iff, h1, h2]

lemma getLocal_isSome_of_mem {df : DF} {c : String} (h : c ∈ df.localColumns) :
    ∃ ser, df.getLocal c = some ser := by
  unfold DF.localColumns at h
  rw [List.mem_map] at h
  obtain ⟨p, hp, hpc⟩ := h
  have hs : (df.cols.find? (fun q => q.1 == c)).isSome := by
    rw [List.find?_isSome]
    exact ⟨p, hp, by simp [hpc]⟩
  obtain ⟨q, hq⟩ := Option.isSome_iff_exists.mp hs
  exact ⟨⟨df.index, q.2⟩, by unfold DF.getLocal; rw [hq]; rfl⟩

/-- C4: `clear_cache` with `columns` omitted clears exactly the cached values
of the registered columns of the table that are not local columns; every
other registered column entry is untouched, only cache slots are dropped
(registration metadata survives), and the table's stored frame — hence every
local column's values — is unchanged and immediately readable. -/
theorem clear_cache_noArg_spec (s : OrcaState) (t : String) (tab : DF)
    (hT : s.getTable t = some tab) :
    ∃ s', clear_cache s t .noArg = some s' ∧
      (∀ c, c ∈ registeredColsFor s t → c ∉ tab.localColumns →
        cachedValue s' t c = some none) ∧
      (∀ key : String × String,
        (key.1 ≠ t ∨ key.2 ∈ tab.localColumns ∨ key.2 ∉ registeredColsFor s t) →
        s'.columns.find? (fun p => p.1 == key) = s.columns.find? (fun p => p.1 == key)) ∧
      (∀ (key : String × String) e, s.columns.find? (fun p => p.1 == key) = some e →
        ∃ e', s'.columns.find? (fun p => p.1 == key) = some (e.1, e') ∧
          e'.func = e.2.func ∧ e'.useCache = e.2.useCache ∧ e'.scope = e.2.scope) ∧
      s'.tables = s.tables ∧
      (∀ c ∈ tab.localColumns, s'.getTable t = some tab ∧
        ∃ ser, tab.getLocal c = some ser) := by
  have hpre : ∀ c ∈ (tableAllColumns s t tab).dedup.filter
      (fun c => decide (c ∉ tab.localColumns)),
      ((s.columns.find? (fun p => p.1 == (t, c))).isSome) := by
    intro c hc
    exact find?_isSome_of_registered (mem_clearList.mp hc).1
  obtain ⟨s', hrun, ht', hi', hf⟩ := clearManyColumns_spec t _ s hpre
  have hclear : clear_cache s t .noArg = some s' := by
    simp only [clear_cache, hT, Option.bind_eq_bind, Option.some_bind]
    exact hrun
  have hgt : s'.getTable t = s.getTable t := by
    unfold OrcaState.getTable; rw [ht']
  refine ⟨s', hclear, ?_, ?_, ?_, ht', ?_⟩
  · intro c hreg hnl
    have hc : c ∈ (tableAllColumns s t tab).dedup.filter
        (fun c => decide (c ∉ tab.localColumns)) := mem_clearList.mpr ⟨hreg, hnl⟩
    obtain ⟨e, he⟩ := Option.isSome_iff_exists.mp (find?_isSome_of_registered hreg)
    unfold cachedValue
    rw [hf (t, c), he]
    have h1 : c ∈ tableAllColumns s t tab :=
      List.mem_dedup.mp (List.mem_filter.mp hc).1
    simp [h1, hnl]
  · intro key hk
    rw [hf key]
    have hcond : ¬ (key.1 = t ∧ key.2 ∈ (tableAllColumns s t tab).dedup.filter
        (fun c => decide (c ∉ tab.localColumns))) := by
      rintro ⟨hk1, hk2⟩
      rcases mem_clearList.mp hk2 with ⟨hreg, hnl⟩
      rcases hk with hk' | hk' | hk'
      · exact hk' hk1
      · exact hnl hk'
      · exact hk' hreg
    cases hfind : s.columns.find? (fun p => p.1 == key) with
    | none => rfl
    | some v =>
      simp only [Option.map_some']
      rw [if_neg hcond]
  · intro key e he
    rw [hf key, he]
    simp only [Option.map_some']
    by_cases hcond : key.1 = t ∧ key.2 ∈ (tableAllColumns s t tab).dedup.filter
        (fun c => decide (c ∉ tab.localColumns))
    · exact ⟨{ e.2 with cached := none }, by rw [if_pos hcond], rfl, rfl, rfl⟩
    · exact ⟨e.2, by rw [if_neg hcond], rfl, rfl, rfl⟩
  · intro c hc
    exact ⟨by rw [hgt, hT], getLocal_isSome_of_mem hc⟩

/-- Example registry with a cached derived column `v` on the example target
table. -/
def exCachedState : OrcaState :=
  ⟨[("from", exFrom), ("to", exTo)],
   [(("to", "v"),
     ⟨.broadcastT "from" "to" "v" "fkey", true, .iteration, some ⟨[0], [some 5]⟩⟩)],
   []⟩

/-- Witness for C4 on the example registry: clearing the `to` table's cache
with no columns argument. -/
theorem clear_cache_noArg_spec_witness :
    ∃ s', clear_cache exCachedState "to" .noArg = some s' ∧
      (∀ c, c ∈ registeredColsFor exCachedState "to" → c ∉ exTo.localColumns →
        cachedValue s' "to" c = some none) ∧
      (∀ key : String × String,
        (key.1 ≠ "to" ∨ key.2 ∈ exTo.localColumns ∨
          key.2 ∉ registeredColsFor exCachedState "to") →
        s'.columns.find? (fun p => p.1 == key)
          = exCachedState.columns.find? (fun p => p.1 == key)) ∧
      (∀ (key : String × String) e,
        exCachedState.columns.find? (fun p => p.1 == key) = some e →
        ∃ e', s'.columns.find? (fun p => p.1 == key) = some (e.1, e') ∧
          e'.func = e.2.func ∧ e'.useCache = e.2.useCache ∧ e'.scope = e.2.scope) ∧
      s'.tables = exCachedState.tables ∧
      (∀ c ∈ exTo.localColumns, s'.getTable "to" = some exTo ∧
        ∃ ser, exTo.getLocal c = some ser) :=
  clear_cache_noArg_spec exCachedState "to" exTo (by rfl)

/-! ### Compiling per-year results: `compile_to_cols` / `compile_to_rows`
(framework.py lines 295-362) -/

/-- A column label: a flat string, or a two-level (year, metric) label as
produced by concatenating a mapping of frames. -/
inductive CLabel where
  | str (s : String)
  | pair (y : Int) (m : String)
deriving DecidableEq

/-- A pandas DataFrame for the compilation helpers: named (possibly
multi-level) row index, index rows (one label tuple per row), column labels,
and row-major data. -/
structure PDF where
  idxNames : List (Option String)
  idxRows : List (List Int)
  cols : List CLabel
  data : List (List Int)
deriving DecidableEq

/-- Modelled from the spec: pandas `concat` on a mapping uses the sorted
keys. -/
def sortByKey (ts : List (Int × PDF)) : List (Int × PDF) :=
  ts.insertionSort (fun a b => a.1 ≤ b.1)

/-- The column label a reset index level gets: its name, or a positional
fallback label for an unnamed level. -/
def levelLabel (i : Nat) (o : Option String) : CLabel :=
  .str (o.getD ("level_" ++ toString i))

/-- Modelled from the spec: pandas `reset_index` — moves every index level
into a plain column (in level order, before the existing columns) and
replaces the row index by a fresh 0,1,2,... range index. -/
def resetIndex (p : PDF) : PDF :=
  { idxNames := [none]
    idxRows := (List.range p.data.length).map (fun i => [(i : Int)])
    cols := (p.idxNames.enum.map (fun q => levelLabel q.1 q.2)) ++ p.cols
    data := List.zipWith (fun ir dr => ir ++ dr) p.idxRows p.data }

/-- Remove the elements whose position (starting at `i`) is listed in `ps`. -/
def removeIdx {α : Type} (ps : List Nat) : List α → Nat → List α
  | [], _ => []
  | x :: l, i => if i ∈ ps then removeIdx ps l (i + 1) else x :: removeIdx ps l (i + 1)

/-- Remove the elements at the given positions of a list. -/
def removePositions {α : Type} (l : List α) (ps : List Nat) : List α :=
  removeIdx ps l 0

/-- Modelled from the spec: pandas `set_index(keys)` — moves the named
columns into the row index (level order following `keys`), removing them
from the columns; fails (KeyError) when a key is not a column label. -/
def setIndex (p : PDF) (keys : List String) : Option PDF := do
  let ps ← keys.mapM (fun k => p.cols.findIdx? (fun l => l == .str k))
  some { idxNames := keys.map some
         idxRows := p.data.map (fun r => ps.map (fun j => r.getD j 0))
         cols := removePositions p.cols ps
         data := p.data.map (fun r => removePositions r ps) }

/-- Collapse a two-level (year, metric) column label into `<metric>_<year>`
(framework.py line 326: `'{}{}{}'.format(y, '_', x)` with `x` the year level
and `y` the metric level). -/
def collapseLabel : CLabel → CLabel
  | .pair y m => .str (m ++ "_" ++ toString y)
  | .str m => .str m

/-- Modelled from the spec: pandas `concat(mapping, axis=1)` under the
precondition that the frames share their row index — the sorted keys become
the outer column level and the shared row index is kept; row `i` of the
result is the concatenation of each frame's row `i`. -/
def concatColsByYear (ts : List (Int × PDF)) : PDF :=
  let sorted := sortByKey ts
  { idxNames := ((sorted.head?).map (fun p => p.2.idxNames)).getD []
    idxRows := ((sorted.head?).map (fun p => p.2.idxRows)).getD []
    cols := sorted.flatMap (fun p => p.2.cols.map (fun lab =>
      match lab with
      | .str m => CLabel.pair p.1 m
      | .pair _ m => CLabel.pair p.1 m))
    data := (List.range (((sorted.head?).map (fun p => p.2.data.length)).getD 0)).map
      (fun i => sorted.flatMap (fun p => p.2.data.getD i [])) }

/-- Embedding of `framework.compile_to_cols` (framework.py lines 295-333):
column-wise concatenation keyed by year, optional collapsing of the
two-level column labels into `<metric>_<year>`, and a reset of the row index
when `collapse_row_idx` is set and the index has more than one level. -/
def compile_to_cols (ts : List (Int × PDF)) (collapse_col_idx collapse_row_idx : Bool) : PDF :=
  let c := concatColsByYear ts
  let c := if collapse_col_idx then { c with cols := c.cols.map collapseLabel } else c
  if collapse_row_idx ∧ c.idxNames.length > 1 then resetIndex c else c

/-- Modelled from the spec: pandas `concat(mapping)` (row-wise) — the sorted
keys become a new outer index level with no name, inner levels keep their
names; rows are the frames' rows stacked in key order. -/
def concatRowsByYear (ts : List (Int × PDF)) : PDF :=
  let sorted := sortByKey ts
  { idxNames := none :: (((sorted.head?).map (fun p => p.2.idxNames)).getD [])
    idxRows := sorted.flatMap (fun p => p.2.idxRows.map (fun r => p.1 :: r))
    cols := ((sorted.head?).map (fun p => p.2.cols)).getD []
    data := sorted.flatMap (fun p => p.2.data) }

/-- Embedding of `framework.compile_to_rows` (framework.py lines 336-362):
row-wise concatenation keyed by year, renaming the outer index level to
`year`, flattening the whole index into columns, then restoring the grouping
levels as the row index when `collapse_row_idx` is false or there is exactly
one grouping level.  Fails (Python KeyError) when a grouping level that must
be restored has no name. -/
def compile_to_rows (ts : List (Int × PDF)) (collapse_row_idx : Bool) : Option PDF :=
  let c := concatRowsByYear ts
  let grp_levels := c.idxNames.tail
  let c := { c with idxNames := some "year" :: grp_levels }
  let c := resetIndex c
  if ¬ collapse_row_idx ∨ grp_levels.length == 1 then do
    let keys ← grp_levels.mapM (fun o => o)
    setIndex c keys
  else some c

lemma sortByKey_mem {ts : List (Int × PDF)} {p : Int × PDF} :
    p ∈ sortByKey ts ↔ p ∈ ts := by
  unfold sortByKey
  exact (List.perm_insertionSort _ ts).mem_iff

lemma sortByKey_ne_nil {ts : List (Int × PDF)} (h : ts ≠ []) : sortByKey ts ≠ [] := by
  intro hc
  apply h
  have hperm := List.perm_insertionSort (fun a b : Int × PDF => a.1 ≤ b.1) ts
  unfold sortByKey at hc
  rw [hc] at hperm
  exact List.Perm.eq_nil hperm.symm

lemma collapse_cols_flat (l : List (Int × PDF)) (M : List String)
    (hM : ∀ p ∈ l, p.2.cols = M.map CLabel.str) :
    (l.flatMap (fun p => p.2.cols.map (fun lab =>
      match lab with
      | .str m => CLabel.pair p.1 m
      | .pair _ m => CLabel.pair p.1 m))).map collapseLabel
    = l.flatMap (fun p => M.map (fun m => CLabel.str (m ++ "_" ++ toString p.1))) := by
  induction l with
  | nil => rfl
  | cons p l ih =>
    simp only [List.flatMap_cons, List.map_append]
    rw [hM p (List.mem_cons_self p l), ih (fun q hq => hM q (List.mem_cons_of_mem p hq))]
    congr 1
    rw [List.map_map, List.map_map]
    rfl

/-- C6: with `collapse_col_idx` set, `compile_to_cols` on per-year frames
sharing their row index and column set yields, for every (year, metric)
combination, the flat column `<metric>_<year>`, with the shared row count
preserved; when no index reset interferes (`collapse_row_idx` unset, or a
single-level index) the row index is kept as is and the columns are exactly
the flat labels, in sorted-year order. -/
theorem compile_to_cols_spec
    (ts : List (Int × PDF)) (N : List (Option String)) (R : List (List Int))
    (M : List String) (b : Bool) (hne : ts ≠ [])
    (hN : ∀ p ∈ ts, p.2.idxNames = N)
    (hR : ∀ p ∈ ts, p.2.idxRows = R)
    (hM : ∀ p ∈ ts, p.2.cols = M.map CLabel.str)
    (hD : ∀ p ∈ ts, p.2.data.length = R.length) :
    (∀ y df, (y, df) ∈ ts → ∀ m ∈ M,
      CLabel.str (m ++ "_" ++ toString y) ∈ (compile_to_cols ts true b).cols) ∧
    (compile_to_cols ts true b).data.length = R.length ∧
    ((b = false ∨ N.length = 1) →
      (compile_to_cols ts true b).idxRows = R ∧
      (compile_to_cols ts true b).idxNames = N ∧
      (compile_to_cols ts true b).cols = (sortByKey ts).flatMap (fun p =>
        M.map (fun m => CLabel.str (m ++ "_" ++ toString p.1)))) := by
  have hN' : ∀ p ∈ sortByKey ts, p.2.idxNames = N :=
    fun p hp => hN p (sortByKey_mem.mp hp)
  have hR' : ∀ p ∈ sortByKey ts, p.2.idxRows = R :=
    fun p hp => hR p (sortByKey_mem.mp hp)
  have hM' : ∀ p ∈ sortByKey ts, p.2.cols = M.map CLabel.str :=
    fun p hp => hM p (sortByKey_mem.mp hp)
  have hD' : ∀ p ∈ sortByKey ts, p.2.data.length = R.length :=
    fun p hp => hD p (sortByKey_mem.mp hp)
  cases hsl : sortByKey ts with
  | nil => exact absurd hsl (sortByKey_ne_nil hne)
  | cons p0 l0 =>
    have hp0 : p0 ∈ sortByKey ts := by rw [hsl]; exact List.mem_cons_self p0 l0
    have hnames : (concatColsByYear ts).idxNames = N := by
      simp only [concatColsByYear, hsl, List.head?_cons, Option.map_some',
        Option.getD_some]
      exact hN' p0 hp0
    have hrows : (concatColsByYear ts).idxRows = R := by
      simp only [concatColsByYear, hsl, List.head?_cons, Option.map_some',
        Option.getD_some]
      exact hR' p0 hp0
    have hdlen : (concatColsByYear ts).data.length = R.length := by
      simp only [concatColsByYear, hsl, List.head?_cons, Option.map_some',
        Option.getD_some, List.length_map, List.length_range]
      exact hD' p0 hp0
    have hcols : ((concatColsByYear ts).cols).map collapseLabel
        = (sortByKey ts).flatMap (fun p =>
            M.map (fun m => CLabel.str (m ++ "_" ++ toString p.1))) := by
      simp only [concatColsByYear]
      exact collapse_cols_flat (sortByKey ts) M hM'
    have hcc : compile_to_cols ts true b
        = (if b = true ∧ N.length > 1
            then resetIndex { concatColsByYear ts with
              cols := ((concatColsByYear ts).cols).map collapseLabel }
            else { concatColsByYear ts with
              cols := ((concatColsByYear ts).cols).map collapseLabel }) := by
      simp only [compile_to_cols, if_true, hnames]
    have hmem : ∀ y df, (y, df) ∈ ts → ∀ m ∈ M,
        CLabel.str (m ++ "_" ++ toString y) ∈
          ((concatColsByYear ts).cols).map collapseLabel := by
      intro y df hyd m hm
      rw [hcols]
      rw [List.mem_flatMap]
      exact ⟨(y, df), sortByKey_mem.mpr hyd, List.mem_map_of_mem _ hm⟩
    refine ⟨?_, ?_, ?_⟩
    · intro y df hyd m hm
      rw [hcc]
      by_cases hb : b = true ∧ N.length > 1
      · rw [if_pos hb]
        simp only [resetIndex]
        exact List.mem_append_right _ (hmem y df hyd m hm)
      · rw [if_neg hb]
        exact hmem y df hyd m hm
    · rw [hcc]
      by_cases hb : b = true ∧ N.length > 1
      · rw [if_pos hb]
        simp only [resetIndex, List.length_zipWith]
        rw [hrows, hdlen]
        exact Nat.min_self _
      · rw [if_neg hb]
        exact hdlen
    · intro hcase
      have hb : ¬ (b = true ∧ N.length > 1) := by
        rcases hcase with rfl | h1
        · rintro ⟨h, _⟩; exact Bool.false_ne_true h
        · rintro ⟨_, h⟩; omega
      rw [hcc, if_neg hb]
      refine ⟨hrows, hnames, ?_⟩
      show ((concatColsByYear ts).cols).map collapseLabel = _
      rw [hcols, hsl]

/-- Example per-year aggregation result for 2020: one metric `pop` over a
single-level `region` index. -/
def exY1 : PDF := ⟨[some "region"], [[1], [2]], [.str "pop"], [[5], [6]]⟩

/-- Example per-year aggregation result for 2030, same shape. -/
def exY2 : PDF := ⟨[some "region"], [[1], [2]], [.str "pop"], [[7], [8]]⟩

/-- The example per-year mapping holding exY1 at 2020 and exY2 at 2030. -/
def exTs : List (Int × PDF) := [(2020, exY1), (2030, exY2)]

/-- Witness for C6 on the spec's example: years 2020 and 2030, one metric
column `pop`, a shared single-level row index. -/
theorem compile_to_cols_spec_witness :
    (∀ y df, (y, df) ∈ exTs → ∀ m ∈ ["pop"],
      CLabel.str (m ++ "_" ++ toString y) ∈ (compile_to_cols exTs true true).cols) ∧
    (compile_to_cols exTs true true).data.length = [[(1 : Int)], [2]].length ∧
    (((true : Bool) = false ∨ [some "region"].length = 1) →
      (compile_to_cols exTs true true).idxRows = [[(1 : Int)], [2]] ∧
      (compile_to_cols exTs true true).idxNames = [some "region"] ∧
      (compile_to_cols exTs true true).cols = (sortByKey exTs).flatMap (fun p =>
        ["pop"].map (fun m => CLabel.str (m ++ "_" ++ toString p.1)))) :=
  compile_to_cols_spec exTs [some "region"] [[1], [2]] ["pop"] true
    (by decide) (by decide) (by decide) (by decide) (by decide)

lemma removeIdx_append {α : Type} (ps : List Nat) (l1 l2 : List α) (i : Nat) :
    removeIdx ps (l1 ++ l2) i = removeIdx ps l1 i ++ removeIdx ps l2 (i + l1.length) := by
  induction l1 generalizing i with
  | nil => simp [removeIdx]
  | cons x l1 ih =>
    simp only [List.cons_append, removeIdx, List.append_eq]
    have harg : i + 1 + l1.length = i + (x :: l1).length := by
      simp only [List.length_cons]
      omega
    by_cases h : i ∈ ps
    · rw [if_pos h, if_pos h, ih, harg]
    · rw [if_neg h, if_neg h, ih, harg, List.cons_append]

lemma removeIdx_all_in {α : Type} (ps : List Nat) (l : List α) (i : Nat)
    (h : ∀ j, i ≤ j → j < i + l.length → j ∈ ps) : removeIdx ps l i = [] := by
  induction l generalizing i with
  | nil => rfl
  | cons x l ih =>
    simp only [removeIdx]
    rw [if_pos (h i (le_refl i) (by simp only [List.length_cons]; omega))]
    exact ih (i + 1) (fun j h1 h2 => h j (by omega)
      (by simp only [List.length_cons]; omega))

lemma removeIdx_none_in {α : Type} (ps : List Nat) (l : List α) (i : Nat)
    (h : ∀ j, i ≤ j → j ∉ ps) : removeIdx ps l i = l := by
  induction l generalizing i with
  | nil => rfl
  | cons x l ih =>
    simp only [removeIdx]
    rw [if_neg (h i (le_refl i)), ih (i + 1) (fun j hj => h j (by omega))]

lemma removePositions_cons_append {α : Type} (a : α) (l1 l2 : List α) :
    removePositions (a :: (l1 ++ l2)) (List.range' 1 l1.length) = a :: l2 := by
  unfold removePositions
  simp only [removeIdx]
  rw [if_neg (by
    intro hc
    rcases List.mem_range'.mp hc with ⟨k, _, he⟩
    omega)]
  rw [show (0 + 1) = 1 from rfl, removeIdx_append]
  rw [removeIdx_all_in _ l1 1 (fun j h1 h2 =>
    List.mem_range'.mpr ⟨j - 1, by omega, by omega⟩)]
  rw [removeIdx_none_in _ l2 (1 + l1.length) (by
    intro j hj hc
    rcases List.mem_range'.mp hc with ⟨k, hk, he⟩
    omega)]
  rfl

lemma map_range'_getD_cons (a : Int) (l : List Int) (s n : Nat) :
    (List.range' (s + 1) n).map (fun j => (a :: l).getD j 0)
      = (List.range' s n).map (fun j => l.getD j 0) := by
  induction n generalizing s with
  | zero => rfl
  | succ n ih =>
    rw [List.range'_succ, List.range'_succ]
    simp only [List.map_cons]
    rw [ih (s + 1)]
    simp

lemma map_range_getD_append (l dr : List Int) :
    (List.range l.length).map (fun j => (l ++ dr).getD j 0) = l := by
  induction l with
  | nil => rfl
  | cons x l ih =>
    rw [List.length_cons, List.range_succ_eq_map, List.map_cons]
    congr 1
    rw [List.map_map]
    have hcomp : ((fun j => ((x :: l) ++ dr).getD j 0) ∘ Nat.succ)
        = (fun j => (l ++ dr).getD j 0) := by
      funext j
      rfl
    rw [hcomp, ih]

lemma map_range'_one_getD (a : Int) (ir dr : List Int) :
    (List.range' 1 ir.length).map (fun j => (a :: (ir ++ dr)).getD j 0) = ir := by
  have h := map_range'_getD_cons a (ir ++ dr) 0 ir.length
  rw [show (0 + 1) = 1 from rfl] at h
  rw [h, ← List.range_eq_range', map_range_getD_append]

lemma findIdx?_names_block (names : List String) (rest : List CLabel) (k : String)
    (hk : k ∈ names) :
    (names.map CLabel.str ++ rest).findIdx? (fun lab => lab == .str k)
      = some (names.indexOf k) := by
  induction names with
  | nil => cases hk
  | cons n ns ih =>
    simp only [List.map_cons, List.cons_append, List.findIdx?_cons]
    by_cases h : n = k
    · subst h
      rw [if_pos (by simp), List.indexOf_cons_self]
    · rw [if_neg (by simp [h])]
      rcases List.mem_cons.mp hk with rfl | hk'
      · exact absurd rfl h
      · rw [List.findIdx?_succ, ih hk', List.indexOf_cons_ne _ h]
        simp [Nat.succ_eq_add_one]

lemma findIdx?_year_names (names M : List String) (k : String)
    (hk : k ∈ names) (hy : k ≠ "year") :
    ((CLabel.str "year" :: (names.map CLabel.str ++ M.map CLabel.str)).findIdx?
      (fun lab => lab == .str k)) = some (names.indexOf k + 1) := by
  rw [List.findIdx?_cons]
  rw [if_neg (by simp; exact fun hh => hy hh.symm)]
  rw [List.findIdx?_succ, findIdx?_names_block names _ k hk]
  rfl

lemma mapM_findIdx_cols (names M : List String) (l : List String)
    (hl : ∀ k ∈ l, k ∈ names) (hy : ∀ k ∈ l, k ≠ "year") :
    l.mapM (fun k => (CLabel.str "year" :: (names.map CLabel.str ++ M.map CLabel.str)).findIdx?
        (fun lab => lab == .str k))
      = some (l.map (fun k => names.indexOf k + 1)) := by
  induction l with
  | nil => rfl
  | cons k l ih =>
    rw [List.mapM_cons]
    rw [findIdx?_year_names names M k (hl k (List.mem_cons_self k l))
      (hy k (List.mem_cons_self k l))]
    rw [ih (fun q hq => hl q (List.mem_cons_of_mem k hq))
      (fun q hq => hy q (List.mem_cons_of_mem k hq))]
    rfl

lemma mapM_id_map_some (names : List String) :
    (names.map some).mapM (fun o : Option String => o) = some names := by
  induction names with
  | nil => rfl
  | cons n ns ih =>
    rw [List.map_cons, List.mapM_cons, ih]
    rfl

lemma map_indexOf_nodup (names : List String) :
    names.Nodup → names.map (fun k => names.indexOf k) = List.range names.length := by
  induction names with
  | nil => intro _; rfl
  | cons n ns ih =>
    intro h
    have hn : n ∉ ns := (List.nodup_cons.mp h).1
    rw [List.map_cons, List.indexOf_cons_self, List.length_cons, List.range_succ_eq_map]
    congr 1
    have hstep : ns.map (fun k => (n :: ns).indexOf k)
        = ns.map (Nat.succ ∘ fun k => ns.indexOf k) := by
      apply List.map_congr_left
      intro k hk
      have hkn : k ≠ n := fun hh => hn (hh ▸ hk)
      simp only [Function.comp_apply]
      exact List.indexOf_cons_ne _ (fun hh => hkn hh.symm)
    rw [hstep, ← List.map_map, ih (List.nodup_cons.mp h).2]

lemma map_indexOf_succ_nodup (names : List String) (h : names.Nodup) :
    names.map (fun k => names.indexOf k + 1) = List.range' 1 names.length := by
  have h1 : names.map (fun k => names.indexOf k + 1)
      = (names.map (fun k => names.indexOf k)).map (fun j => 1 + j) := by
    rw [List.map_map]
    apply List.map_congr_left
    intro k _
    simp [Nat.add_comm]
  rw [h1, map_indexOf_nodup names h, List.range'_eq_map_range]

lemma enumFrom_levelLabel (L : List String) :
    ∀ st : Nat, ((L.map some).enumFrom st).map (fun q => levelLabel q.1 q.2)
      = L.map CLabel.str := by
  induction L with
  | nil => intro st; rfl
  | cons n ns ih =>
    intro st
    simp only [List.map_cons, List.enumFrom_cons]
    rw [ih (st + 1)]
    rfl

lemma flatMap_congr_mem {α β : Type} {l : List α} {f g : α → List β}
    (h : ∀ a ∈ l, f a = g a) : l.flatMap f = l.flatMap g := by
  induction l with
  | nil => rfl
  | cons a l ih =>
    simp only [List.flatMap_cons]
    rw [h a (List.mem_cons_self a l), ih (fun b hb => h b (List.mem_cons_of_mem a hb))]

lemma zipWith_flatMap_append {α β γ : Type} (f : α → β → γ) (l : List (Int × PDF))
    (g : Int × PDF → List α) (h : Int × PDF → List β)
    (hlen : ∀ p ∈ l, (g p).length = (h p).length) :
    List.zipWith f (l.flatMap g) (l.flatMap h)
      = l.flatMap (fun p => List.zipWith f (g p) (h p)) := by
  induction l with
  | nil => rfl
  | cons p l ih =>
    simp only [List.flatMap_cons]
    rw [List.zipWith_append _ _ _ _ _ (hlen p (List.mem_cons_self p l))]
    rw [ih (fun q hq => hlen q (List.mem_cons_of_mem p hq))]

lemma frame_proj_idx (y : Int) (len : Nat) :
    ∀ (irs ds : List (List Int)), irs.length = ds.length →
    (∀ ir ∈ irs, ir.length = len) →
    (List.zipWith (fun ir dr => ir ++ dr) (irs.map (fun r => y :: r)) ds).map
      (fun r => (List.range' 1 len).map (fun j => r.getD j 0)) = irs := by
  intro irs
  induction irs with
  | nil => intro ds _ _; rfl
  | cons ir irs ih =>
    intro ds hlen hr
    cases ds with
    | nil => simp at hlen
    | cons dr ds =>
      simp only [List.map_cons, List.zipWith_cons_cons]
      congr 1
      · rw [show (fun r => y :: r) ir ++ dr = y :: (ir ++ dr) from rfl]
        rw [← hr ir (List.mem_cons_self ir irs)]
        exact map_range'_one_getD y ir dr
      · exact ih ds (by simpa using hlen)
          (fun q hq => hr q (List.mem_cons_of_mem ir hq))

lemma frame_remove_rows (y : Int) (len : Nat) :
    ∀ (irs ds : List (List Int)), irs.length = ds.length →
    (∀ ir ∈ irs, ir.length = len) →
    (List.zipWith (fun ir dr => ir ++ dr) (irs.map (fun r => y :: r)) ds).map
      (fun r => removePositions r (List.range' 1 len)) = ds.map (fun dr => y :: dr) := by
  intro irs
  induction irs with
  | nil =>
    intro ds hlen _
    cases ds with
    | nil => rfl
    | cons dr ds => simp at hlen
  | cons ir irs ih =>
    intro ds hlen hr
    cases ds with
    | nil => simp at hlen
    | cons dr ds =>
      simp only [List.map_cons, List.zipWith_cons_cons]
      congr 1
      · rw [show (fun r => y :: r) ir ++ dr = y :: (ir ++ dr) from rfl]
        rw [← hr ir (List.mem_cons_self ir irs)]
        exact removePositions_cons_append y ir dr
      · exact ih ds (by simpa using hlen)
          (fun q hq => hr q (List.mem_cons_of_mem ir hq))

/-- C7: `compile_to_rows` with `collapse_row_idx = false` on per-year frames
sharing named grouping index levels and a column set concatenates them
row-wise in sorted-year order — one row per (year, group) pair — with a
`year` column holding each row's year, the original grouping values
preserved, and the grouping levels restored as the row index. -/
theorem compile_to_rows_spec
    (ts : List (Int × PDF)) (names M : List String)
    (hne : ts ≠ [])
    (hN : ∀ p ∈ ts, p.2.idxNames = names.map some)
    (hM : ∀ p ∈ ts, p.2.cols = M.map CLabel.str)
    (hlen : ∀ p ∈ ts, p.2.data.length = p.2.idxRows.length)
    (hrow : ∀ p ∈ ts, ∀ ir ∈ p.2.idxRows, ir.length = names.length)
    (hnodup : names.Nodup)
    (hyear : "year" ∉ names) :
    ∃ r, compile_to_rows ts false = some r ∧
      r.idxNames = names.map some ∧
      r.cols = CLabel.str "year" :: M.map CLabel.str ∧
      r.idxRows = (sortByKey ts).flatMap (fun p => p.2.idxRows) ∧
      r.data = (sortByKey ts).flatMap (fun p => p.2.data.map (fun dr => p.1 :: dr)) := by
  have hN' : ∀ p ∈ sortByKey ts, p.2.idxNames = names.map some :=
    fun p hp => hN p (sortByKey_mem.mp hp)
  have hM' : ∀ p ∈ sortByKey ts, p.2.cols = M.map CLabel.str :=
    fun p hp => hM p (sortByKey_mem.mp hp)
  have hlen' : ∀ p ∈ sortByKey ts, p.2.data.length = p.2.idxRows.length :=
    fun p hp => hlen p (sortByKey_mem.mp hp)
  have hrow' : ∀ p ∈ sortByKey ts, ∀ ir ∈ p.2.idxRows, ir.length = names.length :=
    fun p hp => hrow p (sortByKey_mem.mp hp)
  cases hsl : sortByKey ts with
  | nil => exact absurd hsl (sortByKey_ne_nil hne)
  | cons p0 l0 =>
    rw [hsl] at hN' hM' hlen' hrow'
    have hp0 : p0 ∈ p0 :: l0 := List.mem_cons_self p0 l0
    have htail : (concatRowsByYear ts).idxNames.tail = names.map some := by
      simp only [concatRowsByYear, hsl, List.head?_cons, Option.map_some',
        Option.getD_some]
      rw [hN' p0 hp0]
      rfl
    have hstep : compile_to_rows ts false = (do
        let keys ← ((concatRowsByYear ts).idxNames.tail).mapM (fun o => o)
        setIndex (resetIndex { concatRowsByYear ts with
          idxNames := some "year" :: (concatRowsByYear ts).idxNames.tail }) keys) := by
      simp only [compile_to_rows]
      rw [if_pos (Or.inl (by simp))]
    rw [hstep, htail, mapM_id_map_some]
    have hkeys : (some names >>= fun keys =>
        setIndex (resetIndex { concatRowsByYear ts with
          idxNames := some "year" :: names.map some }) keys)
      = setIndex (resetIndex { concatRowsByYear ts with
          idxNames := some "year" :: names.map some }) names := rfl
    rw [hkeys]
    have hc1names : ({ concatRowsByYear ts with
        idxNames := some "year" :: names.map some } : PDF).idxNames
        = some "year" :: names.map some := rfl
    have hc1cols : ({ concatRowsByYear ts with
        idxNames := some "year" :: names.map some } : PDF).cols = M.map CLabel.str := by
      show (concatRowsByYear ts).cols = M.map CLabel.str
      simp only [concatRowsByYear, hsl, List.head?_cons, Option.map_some',
        Option.getD_some]
      exact hM' p0 hp0
    have hc1rows : ({ concatRowsByYear ts with
        idxNames := some "year" :: names.map some } : PDF).idxRows
        = (p0 :: l0).flatMap (fun p => p.2.idxRows.map (fun r => p.1 :: r)) := by
      show (concatRowsByYear ts).idxRows = _
      simp only [concatRowsByYear, hsl]
    have hc1data : ({ concatRowsByYear ts with
        idxNames := some "year" :: names.map some } : PDF).data
        = (p0 :: l0).flatMap (fun p => p.2.data) := by
      show (concatRowsByYear ts).data = _
      simp only [concatRowsByYear, hsl]
    have hc2cols : (resetIndex { concatRowsByYear ts with
        idxNames := some "year" :: names.map some }).cols
        = CLabel.str "year" :: (names.map CLabel.str ++ M.map CLabel.str) := by
      show (({ concatRowsByYear ts with
          idxNames := some "year" :: names.map some } : PDF).idxNames.enum.map
            (fun q => levelLabel q.1 q.2))
          ++ ({ concatRowsByYear ts with
          idxNames := some "year" :: names.map some } : PDF).cols = _
      rw [hc1names, hc1cols]
      show (((0, some "year") :: ((names.map some).enumFrom 1)).map
        (fun q => levelLabel q.1 q.2)) ++ M.map CLabel.str = _
      rw [List.map_cons, enumFrom_levelLabel names 1]
      rfl
    have hc2data : (resetIndex { concatRowsByYear ts with
        idxNames := some "year" :: names.map some }).data
        = (p0 :: l0).flatMap (fun p =>
            List.zipWith (fun ir dr => ir ++ dr)
              (p.2.idxRows.map (fun r => p.1 :: r)) p.2.data) := by
      show List.zipWith (fun ir dr => ir ++ dr)
          ({ concatRowsByYear ts with
            idxNames := some "year" :: names.map some } : PDF).idxRows
          ({ concatRowsByYear ts with
            idxNames := some "year" :: names.map some } : PDF).data = _
      rw [hc1rows, hc1data]
      exact zipWith_flatMap_append _ (p0 :: l0) _ _
        (fun p hp => by
          rw [List.length_map]
          exact (hlen' p hp).symm)
    have hps : names.mapM (fun k => (resetIndex { concatRowsByYear ts with
        idxNames := some "year" :: names.map some }).cols.findIdx?
          (fun lab => lab == CLabel.str k))
        = some (List.range' 1 names.length) := by
      rw [hc2cols]
      rw [mapM_findIdx_cols names M names (fun k hk => hk)
        (fun k hk hke => hyear (hke ▸ hk))]
      rw [map_indexOf_succ_nodup names hnodup]
    refine ⟨{ idxNames := names.map some,
              idxRows := (p0 :: l0).flatMap (fun p => p.2.idxRows),
              cols := CLabel.str "year" :: M.map CLabel.str,
              data := (p0 :: l0).flatMap (fun p =>
                p.2.data.map (fun dr => p.1 :: dr)) }, ?_, rfl, rfl, rfl, rfl⟩
    unfold setIndex
    rw [hps]
    have hbind : ∀ (x : List Nat) (f : List Nat → Option PDF),
        (some x >>= f) = f x := fun x f => rfl
    rw [hbind]
    refine congrArg some ?_
    have hrowsfield : (resetIndex { concatRowsByYear ts with
        idxNames := some "year" :: names.map some }).data.map
          (fun r => (List.range' 1 names.length).map (fun j => r.getD j 0))
        = (p0 :: l0).flatMap (fun p => p.2.idxRows) := by
      rw [hc2data, List.map_flatMap]
      apply flatMap_congr_mem
      intro p hp
      exact frame_proj_idx p.1 names.length p.2.idxRows p.2.data
        (hlen' p hp).symm (hrow' p hp)
    have hcolsfield : removePositions (resetIndex { concatRowsByYear ts with
        idxNames := some "year" :: names.map some }).cols
          (List.range' 1 names.length)
        = CLabel.str "year" :: M.map CLabel.str := by
      rw [hc2cols]
      rw [show names.length = (names.map CLabel.str).length from
        (List.length_map _ _).symm]
      exact removePositions_cons_append (CLabel.str "year") (names.map CLabel.str)
        (M.map CLabel.str)
    have hdatafield : (resetIndex { concatRowsByYear ts with
        idxNames := some "year" :: names.map some }).data.map
          (fun r => removePositions r (List.range' 1 names.length))
        = (p0 :: l0).flatMap (fun p => p.2.data.map (fun dr => p.1 :: dr)) := by
      rw [hc2data, List.map_flatMap]
      apply flatMap_congr_mem
      intro p hp
      exact frame_remove_rows p.1 names.length p.2.idxRows p.2.data
        (hlen' p hp).symm (hrow' p hp)
    rw [hrowsfield, hcolsfield, hdatafield]

/-- Witness for C7 on the spec's example frames: years 2020 and 2030 with a
`region` grouping level and a `pop` metric. -/
theorem compile_to_rows_spec_witness :
    ∃ r, compile_to_rows exTs false = some r ∧
      r.idxNames = ["region"].map some ∧
      r.cols = CLabel.str "year" :: ["pop"].map CLabel.str ∧
      r.idxRows = (sortByKey exTs).flatMap (fun p => p.2.idxRows) ∧
      r.data = (sortByKey exTs).flatMap (fun p => p.2.data.map (fun dr => p.1 :: dr)) :=
  compile_to_rows_spec exTs ["region"] ["pop"] (by decide) (by decide) (by decide)
    (by decide) (by decide) (by decide) (by decide)

end SmartpySim
